import Mathlib

/-!
Verification of the product-mention extraction and review-matching pipeline
of `src/app.py` (Flask haircare recommendation assistant).

The Python code is shallowly embedded over `List Char` (one entry per
character, matching the Python string indexing).  Only ASCII text is relevant
to every claim, so `Char.toLower` faithfully models `str.lower()`.

Python floating-point constants in the quality heuristics are all multiples
of `0.1`; we model quality scores exactly, scaled by 10, so that every score
and threshold is an integer (`4.5` becomes `45`, `0.3` per keyword becomes
`3`, and so on).  Comparisons such as the exclamation-density check are embedded
cross-multiplied (10 * count > len), which is the exact-rational reading of
the source expression.
-/

namespace Hairstory

/-- Python `str.lower()` restricted to ASCII (all catalog and heuristic
strings in the source are ASCII). -/
def pyLower (s : List Char) : List Char := s.map Char.toLower

/-- The whitespace characters stripped by Python `str.strip()` /
split on by `str.split()` (ASCII range). -/
def pyIsSpace (c : Char) : Bool :=
  c = ' ' || c = '\t' || c = '\n' || c = '\r' || c = Char.ofNat 11 || c = Char.ofNat 12

/-- Python `str.strip()`: remove leading and trailing whitespace. -/
def pyStrip (s : List Char) : List Char :=
  (((s.dropWhile pyIsSpace).reverse).dropWhile pyIsSpace).reverse

/-- Helper for `pyWords`: accumulate the current word (reversed) while
scanning. -/
def pyWordsAux : List Char → List Char → List (List Char)
  | [], cur => if cur = [] then [] else [cur.reverse]
  | c :: rest, cur =>
    if pyIsSpace c then
      if cur = [] then pyWordsAux rest [] else cur.reverse :: pyWordsAux rest []
    else pyWordsAux rest (c :: cur)

/-- Python `str.split()` with no argument: split on runs of whitespace,
discarding empty tokens. -/
def pyWords (s : List Char) : List (List Char) := pyWordsAux s []

/-- Python `needle in haystack` for strings: substring containment. -/
def containsSub (hay needle : List Char) : Bool :=
  match hay with
  | [] => needle.isEmpty
  | _ :: rest => needle.isPrefixOf hay || containsSub rest needle

/-- Helper for `pyFind`, carrying the current index. -/
def pyFindAux (needle : List Char) : List Char → Nat → Int
  | [], i => if needle = [] then (i : Int) else -1
  | c :: rest, i =>
    if needle.isPrefixOf (c :: rest) then (i : Int) else pyFindAux needle rest (i + 1)

/-- Python `str.find`: index of the first occurrence of `needle`, `-1` if
absent. -/
def pyFind (hay needle : List Char) : Int := pyFindAux needle hay 0

/-- Fuel-driven worker for `pyReplace` (fuel keeps the recursion structural,
so that proofs can evaluate it; `fuel = s.length + 1` always suffices since
each step consumes at least one character). -/
def pyReplaceFuel : Nat → List Char → List Char → List Char → List Char
  | 0, s, _, _ => s
  | _ + 1, [], _, _ => []
  | fuel + 1, c :: t, pat, rep =>
    if pat.isPrefixOf (c :: t) ∧ pat ≠ [] then
      rep ++ pyReplaceFuel fuel ((c :: t).drop pat.length) pat rep
    else c :: pyReplaceFuel fuel t pat rep

/-- Python `str.replace(pat, rep)`: replace every (non-overlapping,
leftmost-first) occurrence of `pat` by `rep`. -/
def pyReplace (s pat rep : List Char) : List Char :=
  pyReplaceFuel (s.length + 1) s pat rep

/-- Distinct elements of a list, modelling Python `len(set(xs))` via
`(pyDistinct xs).length`. -/
def pyDistinct {α : Type} [DecidableEq α] : List α → List α
  | [] => []
  | a :: t => if a ∈ t then pyDistinct t else a :: pyDistinct t

/-- Python `s.count(c)` for a single character. -/
def countChar (c : Char) (s : List Char) : Nat :=
  (s.filter (fun a => a = c)).length

/-! ## Quality filtering (`is_quality_review` in `src/app.py`, lines 499-563) -/

/-- The HTML apostrophe entity `&#x27;` replaced by `is_quality_review`
(spelled as a character list; `Char.ofNat 39` is the apostrophe). -/
def entityApos : List Char := ['&', '#', 'x', '2', '7', ';']

/-- The HTML entity `&quot;`. -/
def entityQuot : List Char := ['&', 'q', 'u', 'o', 't', ';']

/-- The HTML entity `&amp;`. -/
def entityAmp : List Char := ['&', 'a', 'm', 'p', ';']

/-- The three chained HTML-entity replacements performed on the raw content
by the source (apostrophe, double-quote and ampersand entities, in that
order). -/
def cleanEntities (content : List Char) : List Char :=
  pyReplace (pyReplace (pyReplace content entityApos [Char.ofNat 39])
    entityQuot [Char.ofNat 34]) entityAmp ['&']

/-- The `product_names` list inside `is_quality_review`: reviews whose
cleaned, lower-cased, stripped content equals one of these are skipped. -/
def qualityProductNames : List (List Char) :=
  [("hair balm").data, ("new wash").data, ("undressed").data, ("bond boost").data,
   ("primer").data, ("rich").data, ("original").data]

/-- The `problematic_patterns` list inside `is_quality_review`. -/
def problematicPatterns : List (List Char) :=
  [("smeds").data, ("lovely").data, ("nice").data, ("good").data, ("great").data,
   ("awesome").data, ("amazing").data]

/-- The `meaningful_words` list inside `is_quality_review`. -/
def meaningfulWords : List (List Char) :=
  [("hair").data, ("curls").data, ("waves").data, ("soft").data, ("smooth").data,
   ("frizz").data, ("moisture").data, ("shine").data, ("volume").data, ("texture").data,
   ("defined").data, ("dry").data, ("wash").data, ("use").data, ("product").data,
   ("love").data, ("like").data, ("works").data, ("feel").data, ("look").data]

/-- `is_quality_review(content)` from `src/app.py` (lines 499-563): the
content-quality gate applied to candidate review snippets.  The
exclamation-density and distinct-character-ratio checks are embedded
cross-multiplied by 10. -/
def is_quality_review (content : List Char) : Bool :=
  if content = [] then false
  else
    let content_clean := cleanEntities content
    if pyStrip (pyLower content_clean) ∈ qualityProductNames then false
    else if (pyStrip content_clean).length < 15 then false
    else if (pyDistinct content_clean).length < 5 then false
    else
      let words := pyWords content_clean
      if words.length < 3 then false
      else if (pyDistinct words).length < 3 then false
      else if (pyStrip content_clean).length < 25 ∧
          problematicPatterns.any (fun pattern => containsSub (pyLower content_clean) pattern) then
        false
      else if 10 * countChar '!' content_clean > content_clean.length then false
      else if 10 * (pyDistinct (pyLower content_clean)).length < 3 * content_clean.length then false
      else
        let has_meaningful_content :=
          meaningfulWords.any (fun word => containsSub (pyLower content_clean) word)
        if (pyStrip content_clean).length < 40 ∧ has_meaningful_content = false then false
        else true

/-! ## Quality scoring (`calculate_quality_score` in `src/app.py`, lines 570-612),
scaled by 10 so every constant is an integer. -/

/-- The `benefit_keywords` list. -/
def benefitKeywords : List (List Char) :=
  [("soft").data, ("smooth").data, ("defined").data, ("curls").data, ("waves").data,
   ("frizz").data, ("moisture").data, ("shine").data, ("volume").data, ("texture").data,
   ("dry").data, ("oily").data, ("thick").data, ("thin").data, ("fine").data, ("coarse").data]

/-- The `hair_type_keywords` list. -/
def hairTypeKeywords : List (List Char) :=
  [("curly").data, ("wavy").data, ("straight").data, ("fine").data, ("thick").data,
   ("dry").data, ("oily").data, ("color-treated").data, ("damaged").data]

/-- The `usage_keywords` list. -/
def usageKeywords : List (List Char) :=
  [("air dry").data, ("blow dry").data, ("wash").data, ("use").data, ("apply").data,
   ("leave in").data, ("rinse").data, ("comb").data, ("brush").data]

/-- The `generic_words` list used for the genericness penalty. -/
def genericWords : List (List Char) :=
  [("good").data, ("great").data, ("nice").data, ("lovely").data, ("awesome").data,
   ("amazing").data, ("perfect").data]

/-- `calculate_quality_score(content, score)` from `src/app.py` (lines
570-612), with every value multiplied by 10 (the source constants 2, 1.5, 1,
0.5, 0.3, 0.4, 0.2 become 20, 15, 10, 5, 3, 4, 2; the result compared against
4.5 / 4.0 becomes a comparison against 45 / 40). -/
def calculate_quality_score10 (content : List Char) (score : Int) : Int :=
  let content_length := (pyStrip content).length
  let length_bonus : Int :=
    if 150 < content_length then 20
    else if 100 < content_length then 15
    else if 50 < content_length then 10
    else if 30 < content_length then 5
    else 0
  let lower := pyLower content
  let benefit_count := (benefitKeywords.filter (fun keyword => containsSub lower keyword)).length
  let hair_type_count := (hairTypeKeywords.filter (fun keyword => containsSub lower keyword)).length
  let usage_count := (usageKeywords.filter (fun keyword => containsSub lower keyword)).length
  let short_penalty : Int :=
    if content_length < 30 then -10
    else if content_length < 50 then -5
    else 0
  let generic_count := (genericWords.filter (fun word => containsSub lower word)).length
  let generic_penalty : Int := if 2 < generic_count then -5 else 0
  10 * score + length_bonus + 3 * (benefit_count : Int) + 4 * (hair_type_count : Int) +
    2 * (usage_count : Int) + short_penalty + generic_penalty

/-! ## Review matcher (`fetch_positive_reviews_for_products` in `src/app.py`,
lines 448-682)

The external embedding + vector-search collaborators are modelled by an
oracle parameter `oracle query top_k`, standing for
`index.query(vector=embed(query), top_k=top_k, include_metadata=True)`.
`Except.error ()` models the collaborator raising an exception; the source
wraps the whole batch loop in one `try`/`except` that returns `{}`. -/

/-- One Pinecone match and its metadata fields, as consumed by the source
(each `metadata.get` call with its default). -/
structure RMatch where
  review_score : Int
  product_title : List Char
  review_content : List Char
  hair_type : List Char
  hair_concerns : List Char
  deriving DecidableEq

/-- A formatted review snippet as appended to `positive_reviews` /
`fallback_reviews`; `quality_score10` is the float quality score of the
source scaled by 10. -/
structure ReviewOut where
  review_content : List Char
  review_score : Int
  quality_score10 : Int
  hair_type : List Char
  hair_concerns : List Char
  deriving DecidableEq

/-- Removal of every period and comma, as the source does with two chained
replace calls (applied to the review-side product title before word
splitting). -/
def stripDotsCommas (s : List Char) : List Char :=
  pyReplace (pyReplace s ['.'] []) [','] []

/-- The product-identity filter of the source (lines 489-496 and 652-655):
every whitespace-delimited word of the lower-cased target product title must
occur among the words of the lower-cased record title with its periods and
commas removed. -/
def identityMatches (product_title review_product_title : List Char) : Bool :=
  let product_words := pyWords (pyLower product_title)
  let review_words := pyWords (stripDotsCommas (pyLower review_product_title))
  product_words.all (fun word => decide (word ∈ review_words))

/-- One match processed by the primary scan (lines 482-632): positivity
filter, identity filter, quality filter, threshold `4.5` (scaled: `45`), and
the `break` once `top_k_per_product * 2` candidates were gathered (the break
test runs for every candidate that passed the three filters, whether or not
it met the threshold). -/
def primaryScan (product_title : List Char) (k2 : Nat) :
    List RMatch → List ReviewOut → List ReviewOut
  | [], acc => acc
  | m :: rest, acc =>
    let review_score := m.review_score
    let review_product_title := pyLower m.product_title
    let review_content := pyStrip m.review_content
    if 4 ≤ review_score ∧ identityMatches product_title review_product_title = true ∧
        is_quality_review review_content = true then
      let quality_score := calculate_quality_score10 review_content review_score
      let acc' :=
        if 45 ≤ quality_score then
          acc ++ [⟨review_content, review_score, quality_score, m.hair_type, m.hair_concerns⟩]
        else acc
      if k2 ≤ acc'.length then acc' else primaryScan product_title k2 rest acc'
    else primaryScan product_title k2 rest acc

/-- The fallback rescan (lines 645-666): same filters, relaxed threshold
`4.0` (scaled: `40`), no break. -/
def fallbackScan (product_title : List Char) : List RMatch → List ReviewOut
  | [] => []
  | m :: rest =>
    let review_score := m.review_score
    let review_product_title := pyLower m.product_title
    let review_content := pyStrip m.review_content
    (if 4 ≤ review_score ∧ identityMatches product_title review_product_title = true ∧
         is_quality_review review_content = true ∧
         40 ≤ calculate_quality_score10 review_content review_score then
       [(⟨review_content, review_score,
          calculate_quality_score10 review_content review_score,
          m.hair_type, m.hair_concerns⟩ : ReviewOut)]
     else []) ++ fallbackScan product_title rest

/-- Stable insertion for the descending quality sort: `x` is placed before
the first element whose score is less than or equal to its own coming from
the right, matching the stability of the Python reverse sort. -/
def insertQS (x : ReviewOut) : List ReviewOut → List ReviewOut
  | [] => [x]
  | y :: ys =>
    if x.quality_score10 < y.quality_score10 then y :: insertQS x ys else x :: y :: ys

/-- Stable sort by quality score, highest first (the keyed reverse sort of
the source). -/
def sortQS : List ReviewOut → List ReviewOut
  | [] => []
  | x :: xs => insertQS x (sortQS xs)

/-- Per-product processing of the oracle matches: primary scan, then the
relaxed fallback, then `[:top_k_per_product]` of the descending sort;
`none` models the product being omitted from the result mapping. -/
def processProduct (product_title : List Char) (top_k : Nat) (ms : List RMatch) :
    Option (List ReviewOut) :=
  let positive_reviews := primaryScan product_title (top_k * 2) ms []
  if positive_reviews ≠ [] then some ((sortQS positive_reviews).take top_k)
  else
    let fallback_reviews := fallbackScan product_title ms
    if fallback_reviews ≠ [] then some ((sortQS fallback_reviews).take top_k) else none

/-- `f"Product: {product_title}"` (line 468). -/
def queryText (product_title : List Char) : List Char :=
  ("Product: ").data ++ product_title

/-- Python `dict` assignment `d[k] = v`: replace in place if the key exists,
else append (insertion order preserved). -/
def dictInsert {α β : Type} [DecidableEq α] (k : α) (v : β) :
    List (α × β) → List (α × β)
  | [] => [(k, v)]
  | (k', v') :: rest =>
    if k' = k then (k, v) :: rest else (k', v') :: dictInsert k v rest

/-- The batch loop of `fetch_positive_reviews_for_products`.  An oracle
error models an exception, which propagates to the function-level
`try`/`except` and makes the whole call return the empty mapping — the
accumulated results are discarded. -/
def fetchGo (oracle : List Char → Nat → Except Unit (List RMatch)) (top_k : Nat) :
    List (List Char) → List (List Char × List ReviewOut) → List (List Char × List ReviewOut)
  | [], acc => acc
  | product_title :: rest, acc =>
    if product_title = [] then fetchGo oracle top_k rest acc
    else
      match oracle (queryText product_title) (top_k * 10) with
      | Except.error _ => []
      | Except.ok ms =>
        match processProduct product_title top_k ms with
        | some reviews => fetchGo oracle top_k rest (dictInsert product_title reviews acc)
        | none => fetchGo oracle top_k rest acc

/-- `fetch_positive_reviews_for_products(product_titles, _, top_k_per_product)`
from `src/app.py` (lines 448-682), parameterised by the external
embedding/vector-search oracle. -/
def fetch_positive_reviews_for_products
    (oracle : List Char → Nat → Except Unit (List RMatch))
    (product_titles : List (List Char)) (top_k_per_product : Nat) :
    List (List Char × List ReviewOut) :=
  fetchGo oracle top_k_per_product product_titles []

/-! ## Mention extractor (`extract_product_images` in `src/app.py`,
lines 54-253) -/

/-- A catalog product as consumed by the extractor: its name, image URL and
product URL (the two URL fields default to the empty string). -/
structure Product where
  name : List Char
  img_url : List Char
  url : List Char
  deriving DecidableEq

/-- A `product_info` dictionary value: the name, image URL and product URL
of one product. -/
structure PInfo where
  name : List Char
  img_url : List Char
  url : List Char
  deriving DecidableEq

/-- The `product_info` built for a product (lines 74-78). -/
def mkInfo (p : Product) : PInfo := ⟨p.name, p.img_url, p.url⟩

/-- The insertions of one catalog product into `product_name_to_image`
(lines 71-99): the lower-cased name, plus the hand-authored alias variants.
Note that both `bond boost` and `bond boost for new wash` write the same
alias key `bond boost`. -/
def lookupStep (acc : List (List Char × PInfo)) (p : Product) : List (List Char × PInfo) :=
  let product_name := pyLower p.name
  let product_info := mkInfo p
  let acc1 := dictInsert product_name product_info acc
  if product_name = ("pre-wash").data then dictInsert (("pre wash").data) product_info acc1
  else if product_name = ("hair balm").data then dictInsert (("hair balm").data) product_info acc1
  else if product_name = ("bond boost").data then dictInsert (("bond boost").data) product_info acc1
  else if product_name = ("bond boost for new wash").data then
    dictInsert (("bond boost").data) product_info acc1
  else if product_name = ("bond serum").data then dictInsert (("bond serum").data) product_info acc1
  else if product_name = ("undressed").data then dictInsert (("undressed").data) product_info acc1
  else acc1

/-- `product_name_to_image` (lines 70-99), as an insertion-ordered
association list (Python 3.7+ dict semantics). -/
def buildLookup : List Product → List (List Char × PInfo) → List (List Char × PInfo)
  | [], acc => acc
  | p :: rest, acc => buildLookup rest (lookupStep acc p)

/-- The `recommendation_patterns` vocabulary (lines 106-109). -/
def recommendationSignals : List (List Char) :=
  [("i recommend").data, ("i suggest").data, ("adding").data, ("also suggest").data,
   ("also recommend").data, ("suggest adding").data, ("recommend adding").data,
   ("try").data, ("use").data, ("start with").data]

/-- The `product_variations` table (lines 166-183). -/
def productVariations : List (List Char × List (List Char)) :=
  [((("new wash original").data), [("new wash original").data]),
   ((("new wash rich").data), [("new wash rich").data]),
   ((("hair balm").data), [("hair balm").data, ("balm").data]),
   ((("undressed").data), [("undressed").data]),
   ((("oil").data), [("oil").data]),
   ((("primer").data), [("primer").data]),
   ((("bond boost").data), [("bond boost").data]),
   ((("bond boost for new wash").data), [("bond boost for new wash").data]),
   ((("bond serum").data), [("bond serum").data]),
   ((("pre-wash").data), [("pre-wash").data, ("pre wash").data]),
   ((("red color boost").data), [("red color boost").data]),
   ((("purple color boost").data), [("purple color boost").data]),
   ((("blue color boost").data), [("blue color boost").data]),
   ((("powder").data), [("powder").data]),
   ((("root lift").data), [("root lift").data]),
   ((("wax").data), [("wax").data])]

/-- Lookup in the variations table (Python `product_lower in product_variations`
followed by indexing). -/
def findVariations (key : List Char) : Option (List (List Char)) :=
  (productVariations.find? (fun kv => kv.1 = key)).map (fun kv => kv.2)

/-- Generic shape shared by all five candidate tiers of the source: walk the
`product_name_to_image` items in order and, when the product was not yet
found and the tier condition holds, append the info to `product_images`
and its name to `found_products`. -/
def scanAccept (accept : List Char → PInfo → Bool) :
    List (List Char × PInfo) → List PInfo → List (List Char) → List PInfo × List (List Char)
  | [], product_images, found_products => (product_images, found_products)
  | kv :: rest, product_images, found_products =>
    if kv.2.name ∈ found_products then scanAccept accept rest product_images found_products
    else if accept kv.1 kv.2 then
      scanAccept accept rest (product_images ++ [kv.2]) (found_products ++ [kv.2.name])
    else scanAccept accept rest product_images found_products

/-- Tier 1 condition (lines 112-127): a recommendation-signal phrase and the
product key both occur, within 200 characters of each other. -/
def tier1Accept (text_lower : List Char) (product_name : List Char) (_info : PInfo) : Bool :=
  recommendationSignals.any (fun pattern =>
    containsSub text_lower pattern && containsSub text_lower product_name &&
      decide ((pyFind text_lower pattern - pyFind text_lower product_name).natAbs < 200))

/-- Tier 2 condition (lines 130-134, only run when tier 1 found nothing):
the product key occurs anywhere in the text. -/
def tier2Accept (text_lower : List Char) (product_name : List Char) (_info : PInfo) : Bool :=
  containsSub text_lower product_name

/-- Tier 3 condition (lines 138-161): the display name of the product occurs
anywhere, and a recommendation-signal phrase occurs within 300 characters of
its first occurrence. -/
def tier3Accept (text text_lower : List Char) (_product_name : List Char) (info : PInfo) : Bool :=
  containsSub (pyLower text) (pyLower info.name) &&
    recommendationSignals.any (fun pattern =>
      containsSub text_lower pattern &&
        decide ((pyFind text_lower pattern - pyFind text_lower (pyLower info.name)).natAbs < 300))

/-- Tier 4 condition (lines 185-196): some curated variation of the product
key occurs anywhere in the text. -/
def tier4Accept (text : List Char) (product_name : List Char) (_info : PInfo) : Bool :=
  match findVariations (pyLower product_name) with
  | some variations => variations.any (fun variation => containsSub (pyLower text) variation)
  | none => false

/-- Tier 5 condition (lines 200-207): the display name of the product occurs
anywhere in the text. -/
def tier5Accept (text : List Char) (_product_name : List Char) (info : PInfo) : Bool :=
  containsSub (pyLower text) (pyLower info.name)

/-- The literal reviews-section marker `"what customers are saying"`. -/
def reviewsMarker : List Char := ("what customers are saying").data

/-- Prefix of `hay` before the first occurrence of `sep`
(`hay.split(sep)[0]`; the whole string when `sep` is absent). -/
def beforeFirst (hay sep : List Char) : List Char :=
  match hay with
  | [] => []
  | c :: rest => if sep.isPrefixOf (c :: rest) then [] else c :: beforeFirst rest sep

/-- `main_section` (lines 227-229): the text before the reviews marker when
the marker is present, the whole text otherwise. -/
def mainSectionOf (text_lower : List Char) : List Char :=
  if containsSub text_lower reviewsMarker then beforeFirst text_lower reviewsMarker
  else text_lower

/-- The final-selection loop (lines 216-238): keep a pooled product when its
lower-cased display name occurs in the text and in the main section. -/
def selectMain (text_lower : List Char) :
    List PInfo → List PInfo → List (List Char) → List PInfo × List (List Char)
  | [], final_products, seen_names => (final_products, seen_names)
  | product :: rest, final_products, seen_names =>
    if product.name ∈ seen_names then selectMain text_lower rest final_products seen_names
    else if containsSub text_lower (pyLower product.name) &&
        containsSub (mainSectionOf text_lower) (pyLower product.name) then
      selectMain text_lower rest (final_products ++ [product]) (seen_names ++ [product.name])
    else selectMain text_lower rest final_products seen_names

/-- The fallback loop (lines 242-248): pad from the candidate pool while the
final list has fewer than 4 entries. -/
def backfill : List PInfo → List PInfo → List (List Char) → List PInfo
  | [], final_products, _ => final_products
  | product :: rest, final_products, seen_names =>
    if product.name ∉ seen_names ∧ final_products.length < 4 then
      backfill rest (final_products ++ [product]) (seen_names ++ [product.name])
    else backfill rest final_products seen_names

/-- The five candidate tiers composed (lines 102-207), producing
`product_images` and `found_products`. -/
def candidateScan (text : List Char) (products : List Product) :
    List PInfo × List (List Char) :=
  let text_lower := pyLower text
  let lookup := buildLookup products []
  let s1 := scanAccept (tier1Accept text_lower) lookup [] []
  let s2 := if s1.1 = [] then scanAccept (tier2Accept text_lower) lookup s1.1 s1.2 else s1
  let s3 := scanAccept (tier3Accept text text_lower) lookup s2.1 s2.2
  let s4 := scanAccept (tier4Accept text) lookup s3.1 s3.2
  scanAccept (tier5Accept text) lookup s4.1 s4.2

/-- The candidate pool `product_images` after all five tiers. -/
def candidatePool (text : List Char) (products : List Product) : List PInfo :=
  (candidateScan text products).1

/-- The products accepted by the main-section selection (step 7 of the
spec algorithm). -/
def mainAccepted (text : List Char) (products : List Product) : List PInfo :=
  (selectMain (pyLower text) (candidatePool text products) [] []).1

/-- `extract_product_images(text, products)` from `src/app.py`
(lines 54-253). -/
def extract_product_images (text : List Char) (products : List Product) : List PInfo :=
  let pool := candidatePool text products
  let selected := selectMain (pyLower text) pool [] []
  if selected.1.length < 2 then backfill pool selected.1 selected.2 else selected.1

/-! ## Derived predicates and concrete fixtures used by the theorems -/

/-- The result list is sorted by quality score, highest first (what
`sort(key=..., reverse=True)` guarantees). -/
abbrev qsSortedDesc (l : List ReviewOut) : Prop :=
  l.Pairwise (fun a b => b.quality_score10 ≤ a.quality_score10)

/-- The product-identity rule as worded by the spec claim: every word of the
target name, lower-cased AND punctuation-stripped, must appear among the
lower-cased, punctuation-stripped words of the record title.  (The source
strips punctuation only on the record side; this definition follows the
wording of the claim, for comparison.) -/
def claimIdentityMatches (product_title review_product_title : List Char) : Bool :=
  let product_words := pyWords (stripDotsCommas (pyLower product_title))
  let review_words := pyWords (stripDotsCommas (pyLower review_product_title))
  product_words.all (fun word => decide (word ∈ review_words))

/-- Five-product catalog whose names contain no recommendation-signal
phrase, used to exhibit more than 4 extractor results. -/
def fiveProductCatalog : List Product :=
  [⟨("qa").data, [], []⟩, ⟨("wb").data, [], []⟩, ⟨("xc").data, [], []⟩,
   ⟨("yd").data, [], []⟩, ⟨("ze").data, [], []⟩]

/-- A text mentioning all five products of `fiveProductCatalog`. -/
def fiveProductText : List Char := ("qa wb xc yd ze").data

/-- The catalog product named `Bond Boost`. -/
def bondBoostProduct : Product := ⟨("Bond Boost").data, ("bb.jpg").data, ("bb.html").data⟩

/-- The catalog product named `Bond Boost for New Wash`. -/
def bondBoostForNewWashProduct : Product :=
  ⟨("Bond Boost for New Wash").data, ("bbfnw.jpg").data, ("bbfnw.html").data⟩

/-- A review match that passes every filter of the review matcher for the
product name `a`: score 5, on-product title, substantive content (quality
score 59 on the 10x scale). -/
def goodMatch : RMatch :=
  ⟨5, ("a").data, ("soft hair, nice curls, frizz gone").data, [], []⟩

/-- The snippet produced from `goodMatch`. -/
def goodOut : ReviewOut :=
  ⟨("soft hair, nice curls, frizz gone").data, 5, 59, [], []⟩

/-- Oracle that answers product `a` with `goodMatch` and raises for every
other product: models the embedding/vector-search collaborator failing for
one product of a batch. -/
def c2Oracle : List Char → Nat → Except Unit (List RMatch) :=
  fun query _ => if query = ("Product: a").data then Except.ok [goodMatch] else Except.error ()

/-- Interface-conformant oracle (returns at most `top_k` matches) answering
product `a` with `goodMatch`. -/
def c5Oracle : List Char → Nat → Except Unit (List RMatch) :=
  fun query top_k =>
    if query = ("Product: a").data ∧ 1 ≤ top_k then Except.ok [goodMatch] else Except.ok []

/-- Catalog for the section-exclusion scenario. -/
def c6Catalog : List Product :=
  [⟨("alpha").data, [], []⟩, ⟨("beta").data, [], []⟩, ⟨("Hair Balm").data, [], []⟩]

/-- Text recommending `alpha` and `beta`, with `hair balm` mentioned only
inside the trailing reviews section. -/
def c6Text : List Char :=
  ("i recommend alpha and beta. what customers are saying: hair balm").data

/-- The `alpha` mention returned by the extractor on `c6Text`. -/
def alphaInfo : PInfo := ⟨("alpha").data, [], []⟩

/-! ## Theorems -/

/-- C1.  The claim states that `extract_product_images` always returns at
most 4 entries (as the own comment of the source on line 209 also promises), but
the main-section selection loop has no length cap — only the `< 2` fallback
loop checks `len(final_products) < 4`.  With five catalog products all named
in the text, the extractor returns five entries. -/
theorem C1_cap_violated_at_five_products :
    (extract_product_images fiveProductText fiveProductCatalog).length = 5 := by
  decide

/-- C3.  The claim (and the corresponding spec testable property) states that
`is_quality_review` accepts this substantive 102-character review; the code
returns `False`, because the check
`len(set(content_clean.lower())) < len(content_clean) * 0.3` fires: the
review uses 24 distinct characters, and 24 < 0.3 * 102.  The own comment of
that check says it targets "reviews that are mostly repeated characters", which
this review is not — any ordinary English review longer than about 85
characters is rejected the same way. -/
theorem C3_quality_filter_rejects_substantive_review :
    is_quality_review (("This product completely transformed my curly, frizzy hair " ++
      "into soft defined waves after just one wash.").data) = false := by
  decide

/-- C7.  The claim states the curated alias lookup never collides across
products, and in particular that the alias `bond boost` does not also match
`Bond Boost for New Wash`.  In the source both the `bond boost` and the
`bond boost for new wash` branches write the same dictionary key
`bond boost`, so the later catalog entry wins: with the catalog ordered
`[Bond Boost, Bond Boost for New Wash]`, a text that mentions only the span
`bond boost` is attributed to `Bond Boost for New Wash`, and the product
`Bond Boost` is unreachable. -/
theorem C7_alias_collision_at_bond_boost :
    (extract_product_images (("i recommend bond boost").data)
        [bondBoostProduct, bondBoostForNewWashProduct]).map PInfo.name =
      [("Bond Boost for New Wash").data] := by
  decide

/-- C9.  `extract_product_images` is embedded as a pure total function of
its two arguments — the source reads no clock, randomness or mutable state
on the path to its return value — so two calls with identical arguments
return identical lists. -/
theorem C9_deterministic (text : List Char) (products : List Product) :
    extract_product_images text products = extract_product_images text products := rfl

/-- C4 (counterexample).  The claim says the product-identity filter strips
punctuation from the words of BOTH the target product name and the record
title.  The source strips periods and commas only on the record side: for
the target `wash.` against record title `wash`, the filter of the source
rejects while the both-sides-stripped rule of the claim accepts. -/
theorem C4_counterexample_target_punctuation :
    identityMatches (("wash.").data) (("wash").data) = false ∧
      claimIdentityMatches (("wash.").data) (("wash").data) = true :=
  ⟨by decide, by decide⟩

/-- C4 (amended).  The filter accepts a record exactly when every
whitespace-delimited word of the target product name, lower-cased with its
punctuation kept, appears among the words of the record product-title,
lower-cased with all periods and commas removed. -/
theorem C4_amended_identity_filter_iff (product_title review_product_title : List Char) :
    identityMatches product_title review_product_title = true ↔
      ∀ word ∈ pyWords (pyLower product_title),
        word ∈ pyWords (stripDotsCommas (pyLower review_product_title)) := by
  simp [identityMatches]

/-- C10.  Any content whose HTML-entity-cleaned, lower-cased,
whitespace-stripped form equals one of the seven fixed product-name strings
is rejected by `is_quality_review`, regardless of anything else about the
content (the empty string is rejected by the first check, every other such
string by the product-name check). -/
theorem C10_product_name_only_rejected (content : List Char)
    (h : pyStrip (pyLower (cleanEntities content)) ∈ qualityProductNames) :
    is_quality_review content = false := by
  by_cases hc : content = []
  · simp [is_quality_review, hc]
  · simp [is_quality_review, hc, h]

/-- C10 (witness): `"  Hair Balm "` cleans, lower-cases and strips to
`"hair balm"`, so it is rejected. -/
theorem C10_witness : is_quality_review (("  Hair Balm ").data) = false :=
  C10_product_name_only_rejected (("  Hair Balm ").data) (by decide)

/-- When the oracle raises for some non-empty product title of the batch,
the whole loop is aborted by the single function-level exception handler and
the call returns the empty mapping, whatever had been accumulated. -/
theorem fetchGo_error_eq_nil (oracle : List Char → Nat → Except Unit (List RMatch))
    (top_k : Nat) :
    ∀ (ts : List (List Char)) (acc : List (List Char × List ReviewOut)),
      (∃ t, t ∈ ts ∧ t ≠ [] ∧ oracle (queryText t) (top_k * 10) = Except.error ()) →
      fetchGo oracle top_k ts acc = [] := by
  intro ts
  induction ts with
  | nil =>
    rintro acc ⟨t, ht, _, _⟩
    exact absurd ht (List.not_mem_nil t)
  | cons t0 rest ih =>
    rintro acc ⟨t, ht, hne, herr⟩
    simp only [fetchGo]
    split
    case isTrue h0 =>
      refine ih acc ⟨t, ?_, hne, herr⟩
      rcases List.mem_cons.mp ht with h | h
      · exact absurd (h ▸ h0) hne
      · exact h
    case isFalse h0 =>
      rcases List.mem_cons.mp ht with h | h
      · subst h
        rw [herr]
      · cases hq : oracle (queryText t0) (top_k * 10) with
        | error e => rfl
        | ok ms =>
          change (match processProduct t0 top_k ms with
            | some reviews => fetchGo oracle top_k rest (dictInsert t0 reviews acc)
            | none => fetchGo oracle top_k rest acc) = []
          cases hp : processProduct t0 top_k ms with
          | some revs => exact ih _ ⟨t, h, hne, herr⟩
          | none => exact ih _ ⟨t, h, hne, herr⟩

/-- C2 (counterexample).  The claim says a collaborator failure on a single
product never aborts the batch: the snippets of the other products are still
returned.  With an oracle that answers product `a` and raises for product
`b`, the batch `[a, b]` returns the empty mapping — the snippets gathered
for `a` (which the singleton batch `[a]` does return) are discarded, because
the source wraps the entire loop in one `try`/`except` that returns `{}`. -/
theorem C2_batch_abort_counterexample :
    fetch_positive_reviews_for_products c2Oracle [("a").data, ("b").data] 2 = [] ∧
      fetch_positive_reviews_for_products c2Oracle [("a").data] 2 =
        [((("a").data), [goodOut])] :=
  ⟨by decide, by decide⟩

/-- C2 (amended).  If the embedding/vector-search collaborator raises for
any non-empty product title of the batch, `fetch_positive_reviews_for_products`
does not raise to its caller — it returns the empty mapping, discarding the
snippets gathered for every product of the batch. -/
theorem C2_amended_failure_empties_batch
    (oracle : List Char → Nat → Except Unit (List RMatch))
    (product_titles : List (List Char)) (top_k : Nat)
    (h : ∃ t, t ∈ product_titles ∧ t ≠ [] ∧
      oracle (queryText t) (top_k * 10) = Except.error ()) :
    fetch_positive_reviews_for_products oracle product_titles top_k = [] :=
  fetchGo_error_eq_nil oracle top_k product_titles [] h

/-- C2 (witness): the batch `[a, b]` against `c2Oracle` (which raises for
`b`) yields the empty mapping. -/
theorem C2_amended_witness :
    fetch_positive_reviews_for_products c2Oracle [("a").data, ("b").data] 2 = [] :=
  C2_amended_failure_empties_batch c2Oracle [("a").data, ("b").data] 2
    ⟨("b").data, by decide, by decide, by rfl⟩

/-- Membership in a Python-style dict insertion: the element is the inserted
pair or was already present. -/
theorem mem_dictInsert {α β : Type} [DecidableEq α] (k : α) (v : β) :
    ∀ (l : List (α × β)) (x : α × β), x ∈ dictInsert k v l → x = (k, v) ∨ x ∈ l := by
  intro l
  induction l with
  | nil =>
    intro x h
    simp only [dictInsert] at h
    exact Or.inl (by simpa using h)
  | cons kv rest ih =>
    intro x h
    simp only [dictInsert] at h
    split at h
    · rcases List.mem_cons.mp h with h | h
      · exact Or.inl h
      · exact Or.inr (List.mem_cons_of_mem _ h)
    · rcases List.mem_cons.mp h with h | h
      · exact Or.inr (h ▸ List.mem_cons_self _ _)
      · rcases ih _ h with h | h
        · exact Or.inl h
        · exact Or.inr (List.mem_cons_of_mem _ h)

/-- Every pair produced by the lookup insertions of one product carries the
info of that product or was already in the accumulator. -/
theorem lookupStep_mem (acc : List (List Char × PInfo)) (p : Product)
    (kv : List Char × PInfo) (h : kv ∈ lookupStep acc p) : kv.2 = mkInfo p ∨ kv ∈ acc := by
  have base : kv ∈ dictInsert (pyLower p.name) (mkInfo p) acc → kv.2 = mkInfo p ∨ kv ∈ acc := by
    intro hb
    rcases mem_dictInsert _ _ _ _ hb with hb | hb
    · exact Or.inl (by rw [hb])
    · exact Or.inr hb
  have step : ∀ key : List Char,
      kv ∈ dictInsert key (mkInfo p) (dictInsert (pyLower p.name) (mkInfo p) acc) →
      kv.2 = mkInfo p ∨ kv ∈ acc := by
    intro key hb
    rcases mem_dictInsert _ _ _ _ hb with hb | hb
    · exact Or.inl (by rw [hb])
    · exact base hb
  simp only [lookupStep] at h
  split at h
  · exact step _ h
  · split at h
    · exact step _ h
    · split at h
      · exact step _ h
      · split at h
        · exact step _ h
        · split at h
          · exact step _ h
          · split at h
            · exact step _ h
            · exact base h

/-- Every value of `product_name_to_image` is the info of some catalog
product. -/
theorem buildLookup_mem :
    ∀ (ps : List Product) (acc : List (List Char × PInfo)) (kv : List Char × PInfo),
      kv ∈ buildLookup ps acc → (∃ p ∈ ps, kv.2 = mkInfo p) ∨ kv ∈ acc := by
  intro ps
  induction ps with
  | nil => intro acc kv h; exact Or.inr h
  | cons p rest ih =>
    intro acc kv h
    rcases ih _ _ h with h | h
    · rcases h with ⟨q, hq, he⟩
      exact Or.inl ⟨q, List.mem_cons_of_mem _ hq, he⟩
    · rcases lookupStep_mem _ _ _ h with h | h
      · exact Or.inl ⟨p, List.mem_cons_self _ _, h⟩
      · exact Or.inr h

/-- Every info accepted by a tier scan was already in the pool or is the
value of some lookup entry. -/
theorem scanAccept_fst_mem (accept : List Char → PInfo → Bool) :
    ∀ (kvs : List (List Char × PInfo)) (imgs : List PInfo) (found : List (List Char))
      (x : PInfo), x ∈ (scanAccept accept kvs imgs found).1 →
      x ∈ imgs ∨ ∃ kv, kv ∈ kvs ∧ x = kv.2 := by
  intro kvs
  induction kvs with
  | nil => intro imgs found x h; exact Or.inl h
  | cons kv rest ih =>
    intro imgs found x h
    simp only [scanAccept] at h
    split at h
    · rcases ih _ _ _ h with h | ⟨kv', hkv', he⟩
      · exact Or.inl h
      · exact Or.inr ⟨kv', List.mem_cons_of_mem _ hkv', he⟩
    · split at h
      · rcases ih _ _ _ h with h | ⟨kv', hkv', he⟩
        · rcases List.mem_append.mp h with h | h
          · exact Or.inl h
          · exact Or.inr ⟨kv, List.mem_cons_self _ _, by simpa using h⟩
        · exact Or.inr ⟨kv', List.mem_cons_of_mem _ hkv', he⟩
      · rcases ih _ _ _ h with h | ⟨kv', hkv', he⟩
        · exact Or.inl h
        · exact Or.inr ⟨kv', List.mem_cons_of_mem _ hkv', he⟩

/-- Every candidate in the extractor pool is the info of some catalog
product. -/
theorem candidatePool_mem (text : List Char) (products : List Product) (x : PInfo)
    (h : x ∈ candidatePool text products) : ∃ p ∈ products, x = mkInfo p := by
  have hlook : ∀ kv : List Char × PInfo,
      kv ∈ buildLookup products [] → ∃ p ∈ products, kv.2 = mkInfo p := by
    intro kv hkv
    rcases buildLookup_mem products [] kv hkv with h' | h'
    · exact h'
    · exact absurd h' (List.not_mem_nil kv)
  simp only [candidatePool, candidateScan] at h
  rcases scanAccept_fst_mem _ _ _ _ _ h with h | ⟨kv, hkv, rfl⟩
  · rcases scanAccept_fst_mem _ _ _ _ _ h with h | ⟨kv, hkv, rfl⟩
    · rcases scanAccept_fst_mem _ _ _ _ _ h with h | ⟨kv, hkv, rfl⟩
      · by_cases hc :
          (scanAccept (tier1Accept (pyLower text)) (buildLookup products []) [] []).1 = []
        · rw [if_pos hc] at h
          rcases scanAccept_fst_mem _ _ _ _ _ h with h | ⟨kv, hkv, rfl⟩
          · rw [hc] at h
            exact absurd h (List.not_mem_nil x)
          · exact hlook kv hkv
        · rw [if_neg hc] at h
          rcases scanAccept_fst_mem _ _ _ _ _ h with h | ⟨kv, hkv, rfl⟩
          · exact absurd h (List.not_mem_nil x)
          · exact hlook kv hkv
      · exact hlook kv hkv
    · exact hlook kv hkv
  · exact hlook kv hkv

/-- Every product kept by the main-section selection was already accepted
or has its lower-cased display name inside the main section. -/
theorem selectMain_accepted (text_lower : List Char) :
    ∀ (pool fin : List PInfo) (seen : List (List Char)) (j : PInfo),
      j ∈ (selectMain text_lower pool fin seen).1 →
      j ∈ fin ∨ containsSub (mainSectionOf text_lower) (pyLower j.name) = true := by
  intro pool
  induction pool with
  | nil => intro fin seen j h; exact Or.inl h
  | cons p rest ih =>
    intro fin seen j h
    simp only [selectMain] at h
    split at h
    · exact ih _ _ _ h
    · split at h
      next hcond =>
        rcases ih _ _ _ h with hf | hc
        · rcases List.mem_append.mp hf with hf | hf
          · exact Or.inl hf
          · have hj : j = p := by simpa using hf
            subst hj
            have hcond' := hcond
            simp only [Bool.and_eq_true] at hcond'
            exact Or.inr hcond'.2
        · exact Or.inr hc
      next => exact ih _ _ _ h

/-- Every product kept by the main-section selection was already accepted
or comes from the pool. -/
theorem selectMain_fst_mem (text_lower : List Char) :
    ∀ (pool fin : List PInfo) (seen : List (List Char)) (j : PInfo),
      j ∈ (selectMain text_lower pool fin seen).1 → j ∈ fin ∨ j ∈ pool := by
  intro pool
  induction pool with
  | nil => intro fin seen j h; exact Or.inl h
  | cons p rest ih =>
    intro fin seen j h
    simp only [selectMain] at h
    split at h
    · rcases ih _ _ _ h with h | h
      · exact Or.inl h
      · exact Or.inr (List.mem_cons_of_mem _ h)
    · split at h
      · rcases ih _ _ _ h with hf | hf
        · rcases List.mem_append.mp hf with hf | hf
          · exact Or.inl hf
          · exact Or.inr ((by simpa using hf : j = p) ▸ List.mem_cons_self _ _)
        · exact Or.inr (List.mem_cons_of_mem _ hf)
      · rcases ih _ _ _ h with h | h
        · exact Or.inl h
        · exact Or.inr (List.mem_cons_of_mem _ h)

/-- The main-section selection keeps `seen_names` equal to the names of the
selected products and never selects a duplicate name. -/
theorem selectMain_names (text_lower : List Char) :
    ∀ (pool fin : List PInfo) (seen : List (List Char)),
      seen = fin.map PInfo.name → (fin.map PInfo.name).Nodup →
      (selectMain text_lower pool fin seen).2 =
          ((selectMain text_lower pool fin seen).1).map PInfo.name ∧
        (((selectMain text_lower pool fin seen).1).map PInfo.name).Nodup := by
  intro pool
  induction pool with
  | nil => intro fin seen hs hn; exact ⟨hs, hn⟩
  | cons p rest ih =>
    intro fin seen hs hn
    simp only [selectMain]
    split
    next hin => exact ih _ _ hs hn
    next hnin =>
      split
      next hcond =>
        subst hs
        refine ih _ _ (by simp) ?_
        simp only [List.map_append, List.map_cons, List.map_nil]
        rw [List.nodup_append]
        refine ⟨hn, List.nodup_singleton _, ?_⟩
        intro a ha hb
        have hab : a = p.name := by simpa using hb
        exact hnin (hab ▸ ha)
      next => exact ih _ _ hs hn

/-- The fallback padding also never introduces a duplicate name. -/
theorem backfill_names :
    ∀ (pool fin : List PInfo) (seen : List (List Char)),
      seen = fin.map PInfo.name → (fin.map PInfo.name).Nodup →
      (((backfill pool fin seen)).map PInfo.name).Nodup := by
  intro pool
  induction pool with
  | nil => intro fin seen _ hn; exact hn
  | cons p rest ih =>
    intro fin seen hs hn
    simp only [backfill]
    split
    next hcond =>
      subst hs
      refine ih _ _ (by simp) ?_
      simp only [List.map_append, List.map_cons, List.map_nil]
      rw [List.nodup_append]
      refine ⟨hn, List.nodup_singleton _, ?_⟩
      intro a ha hb
      have hab : a = p.name := by simpa using hb
      exact hcond.1 (hab ▸ ha)
    next => exact ih _ _ hs hn

/-- Every product added by the fallback padding was already selected or
comes from the pool. -/
theorem backfill_mem :
    ∀ (pool fin : List PInfo) (seen : List (List Char)) (x : PInfo),
      x ∈ backfill pool fin seen → x ∈ fin ∨ x ∈ pool := by
  intro pool
  induction pool with
  | nil => intro fin seen x h; exact Or.inl h
  | cons p rest ih =>
    intro fin seen x h
    simp only [backfill] at h
    split at h
    · rcases ih _ _ _ h with hf | hf
      · rcases List.mem_append.mp hf with hf | hf
        · exact Or.inl hf
        · exact Or.inr ((by simpa using hf : x = p) ▸ List.mem_cons_self _ _)
      · exact Or.inr (List.mem_cons_of_mem _ hf)
    · rcases ih _ _ _ h with h | h
      · exact Or.inl h
      · exact Or.inr (List.mem_cons_of_mem _ h)

/-- The fallback loop only appends: its result is the already-selected
prefix followed by candidates drawn from the pool in pool (discovery)
order — a sublist of the pool. -/
theorem backfill_eq_append :
    ∀ (pool fin : List PInfo) (seen : List (List Char)),
      ∃ s, backfill pool fin seen = fin ++ s ∧ List.Sublist s pool := by
  intro pool
  induction pool with
  | nil => intro fin seen; exact ⟨[], (List.append_nil fin).symm, List.nil_sublist []⟩
  | cons p rest ih =>
    intro fin seen
    simp only [backfill]
    split
    next hcond =>
      obtain ⟨s, hs, hsub⟩ := ih (fin ++ [p]) (seen ++ [p.name])
      refine ⟨p :: s, ?_, List.Sublist.cons₂ p hsub⟩
      rw [hs, List.append_assoc]
      rfl
    next =>
      obtain ⟨s, hs, hsub⟩ := ih fin seen
      exact ⟨s, hs, List.Sublist.cons p hsub⟩

/-- The length guard of the fallback loop keeps the final
list at 4 entries or fewer whenever it starts that way. -/
theorem backfill_le4 :
    ∀ (pool fin : List PInfo) (seen : List (List Char)),
      fin.length ≤ 4 → (backfill pool fin seen).length ≤ 4 := by
  intro pool
  induction pool with
  | nil => intro fin seen h; exact h
  | cons p rest ih =>
    intro fin seen h
    simp only [backfill]
    split
    next hcond => exact ih _ _ (by simpa using Nat.succ_le_of_lt hcond.2)
    next => exact ih _ _ h

/-- Every mention returned by the extractor is the info of some catalog
product. -/
theorem extract_mem (text : List Char) (products : List Product) (x : PInfo)
    (h : x ∈ extract_product_images text products) : ∃ p ∈ products, x = mkInfo p := by
  simp only [extract_product_images] at h
  split at h
  · rcases backfill_mem _ _ _ _ h with h | h
    · rcases selectMain_fst_mem _ _ _ _ _ h with h | h
      · exact absurd h (List.not_mem_nil x)
      · exact candidatePool_mem _ _ _ h
    · exact candidatePool_mem _ _ _ h
  · rcases selectMain_fst_mem _ _ _ _ _ h with h | h
    · exact absurd h (List.not_mem_nil x)
    · exact candidatePool_mem _ _ _ h

/-- C8.  Every mention returned by `extract_product_images` has a name that
(case-insensitively, in fact verbatim) equals the name of some catalog
product — the extractor never invents or alters names — and no two returned
mentions share a name. -/
theorem C8_catalog_membership_and_nodup (text : List Char) (products : List Product) :
    (∀ info ∈ extract_product_images text products,
      ∃ p ∈ products, pyLower info.name = pyLower p.name) ∧
      ((extract_product_images text products).map PInfo.name).Nodup := by
  constructor
  · intro info hinfo
    rcases extract_mem text products info hinfo with ⟨p, hp, rfl⟩
    exact ⟨p, hp, rfl⟩
  · have hsel := selectMain_names (pyLower text) (candidatePool text products) [] [] rfl
      (by simp)
    simp only [extract_product_images]
    split
    · exact backfill_names _ _ _ hsel.1 hsel.2
    · exact hsel.2

/-- C6.  When the text contains the reviews marker and a name occurs
nowhere in the main section (the text before the marker), then: if at least
2 products were accepted from the main section, no returned mention bears
that name; and if fewer than 2 were accepted, the result is the
main-section acceptances followed by candidates backfilled from the full
pool (any section) in discovery order — a sublist of the candidate pool —
capped at a maximum of 4 entries. -/
theorem C6_section_exclusion (text : List Char) (products : List Product) (nm : List Char)
    (_hmark : containsSub (pyLower text) reviewsMarker = true)
    (honly : containsSub (mainSectionOf (pyLower text)) (pyLower nm) = false) :
    (2 ≤ (mainAccepted text products).length →
      ∀ j ∈ extract_product_images text products, pyLower j.name ≠ pyLower nm) ∧
      ((mainAccepted text products).length < 2 →
        (extract_product_images text products).length ≤ 4 ∧
          ∃ s, extract_product_images text products = mainAccepted text products ++ s ∧
            List.Sublist s (candidatePool text products)) := by
  constructor
  · intro h2 j hj heq
    have h2' : ¬ (selectMain (pyLower text) (candidatePool text products) [] []).1.length < 2 := by
      simp only [mainAccepted] at h2
      omega
    have hx : extract_product_images text products =
        (selectMain (pyLower text) (candidatePool text products) [] []).1 := by
      simp only [extract_product_images]
      rw [if_neg h2']
    rw [hx] at hj
    rcases selectMain_accepted (pyLower text) _ _ _ j hj with h | h
    · exact absurd h (List.not_mem_nil j)
    · rw [heq] at h
      rw [h] at honly
      exact absurd honly (by decide)
  · intro h2
    have h2' : (selectMain (pyLower text) (candidatePool text products) [] []).1.length < 2 := by
      simpa only [mainAccepted] using h2
    have hx : extract_product_images text products =
        backfill (candidatePool text products)
          (selectMain (pyLower text) (candidatePool text products) [] []).1
          (selectMain (pyLower text) (candidatePool text products) [] []).2 := by
      simp only [extract_product_images]
      rw [if_pos h2']
    constructor
    · rw [hx]
      exact backfill_le4 _ _ _ (by omega)
    · obtain ⟨s, hs, hsub⟩ := backfill_eq_append (candidatePool text products)
        (selectMain (pyLower text) (candidatePool text products) [] []).1
        (selectMain (pyLower text) (candidatePool text products) [] []).2
      refine ⟨s, ?_, hsub⟩
      rw [hx, hs]
      rfl

/-- C6 (witness): on `c6Text` (which recommends `alpha` and `beta` and
mentions `hair balm` only after the marker), two products are accepted from
the main section and the first returned mention is not `hair balm`. -/
theorem C6_section_exclusion_witness :
    pyLower alphaInfo.name ≠ pyLower (("hair balm").data) :=
  (C6_section_exclusion c6Text c6Catalog (("hair balm").data) (by decide) (by decide)).1
    (by decide) alphaInfo (by decide)

/-- Every snippet gathered by the primary scan was already accumulated or
passed the positivity filter and the 4.5 quality threshold. -/
theorem primaryScan_mem (title : List Char) (k2 : Nat) :
    ∀ (ms : List RMatch) (acc : List ReviewOut) (r : ReviewOut),
      r ∈ primaryScan title k2 ms acc →
      r ∈ acc ∨ (4 ≤ r.review_score ∧ 45 ≤ r.quality_score10) := by
  intro ms
  induction ms with
  | nil => intro acc r h; exact Or.inl h
  | cons m rest ih =>
    intro acc r h
    simp only [primaryScan] at h
    split at h
    next hc =>
      split at h
      next hq =>
        split at h
        next =>
          rcases List.mem_append.mp h with h | h
          · exact Or.inl h
          · have hr : r = ⟨pyStrip m.review_content, m.review_score,
                calculate_quality_score10 (pyStrip m.review_content) m.review_score,
                m.hair_type, m.hair_concerns⟩ := by simpa using h
            subst hr
            exact Or.inr ⟨hc.1, hq⟩
        next =>
          rcases ih _ _ h with h | h
          · rcases List.mem_append.mp h with h | h
            · exact Or.inl h
            · have hr : r = ⟨pyStrip m.review_content, m.review_score,
                  calculate_quality_score10 (pyStrip m.review_content) m.review_score,
                  m.hair_type, m.hair_concerns⟩ := by simpa using h
              subst hr
              exact Or.inr ⟨hc.1, hq⟩
          · exact Or.inr h
      next =>
        split at h
        next => exact Or.inl h
        next =>
          rcases ih _ _ h with h | h
          · exact Or.inl h
          · exact Or.inr h
    next => exact ih _ _ h

/-- Every snippet gathered by the fallback scan passed the positivity
filter and the relaxed 4.0 quality threshold. -/
theorem fallbackScan_mem (title : List Char) :
    ∀ (ms : List RMatch) (r : ReviewOut),
      r ∈ fallbackScan title ms → 4 ≤ r.review_score ∧ 40 ≤ r.quality_score10 := by
  intro ms
  induction ms with
  | nil => intro r h; exact absurd h (List.not_mem_nil r)
  | cons m rest ih =>
    intro r h
    simp only [fallbackScan] at h
    rcases List.mem_append.mp h with h | h
    · split at h
      next hc =>
        have hr : r = ⟨pyStrip m.review_content, m.review_score,
            calculate_quality_score10 (pyStrip m.review_content) m.review_score,
            m.hair_type, m.hair_concerns⟩ := by simpa using h
        subst hr
        exact ⟨hc.1, hc.2.2.2⟩
      next => exact absurd h (List.not_mem_nil r)
    · exact ih _ h

/-- Membership through the stable insertion. -/
theorem mem_insertQS (x : ReviewOut) :
    ∀ (l : List ReviewOut) (r : ReviewOut), r ∈ insertQS x l ↔ r = x ∨ r ∈ l := by
  intro l
  induction l with
  | nil => intro r; simp [insertQS]
  | cons y ys ih =>
    intro r
    simp only [insertQS]
    split
    · rw [List.mem_cons, ih, List.mem_cons]
      tauto
    · simp only [List.mem_cons]

/-- The quality sort permutes membership. -/
theorem mem_sortQS :
    ∀ (l : List ReviewOut) (r : ReviewOut), r ∈ sortQS l ↔ r ∈ l := by
  intro l
  induction l with
  | nil => intro r; simp [sortQS]
  | cons x xs ih =>
    intro r
    simp only [sortQS]
    rw [mem_insertQS, ih, List.mem_cons]

/-- Inserting into a descending-sorted list keeps it descending-sorted. -/
theorem sorted_insertQS (x : ReviewOut) :
    ∀ (l : List ReviewOut), qsSortedDesc l → qsSortedDesc (insertQS x l) := by
  intro l
  induction l with
  | nil => intro _; simp [insertQS, qsSortedDesc]
  | cons y ys ih =>
    intro h
    obtain ⟨hy, hys⟩ := List.pairwise_cons.mp h
    simp only [insertQS]
    split
    next hlt =>
      refine List.pairwise_cons.mpr ⟨?_, ih hys⟩
      intro z hz
      rcases (mem_insertQS x ys z).mp hz with rfl | hz
      · exact le_of_lt hlt
      · exact hy z hz
    next hge =>
      refine List.pairwise_cons.mpr ⟨?_, List.pairwise_cons.mpr ⟨hy, hys⟩⟩
      intro z hz
      rcases List.mem_cons.mp hz with rfl | hz
      · exact Int.not_lt.mp hge
      · exact le_trans (hy z hz) (Int.not_lt.mp hge)

/-- The quality sort produces a descending-sorted list. -/
theorem sorted_sortQS : ∀ (l : List ReviewOut), qsSortedDesc (sortQS l) := by
  intro l
  induction l with
  | nil => simp [sortQS, qsSortedDesc]
  | cons x xs ih => exact sorted_insertQS x _ ih

/-- The stable insertion grows the length by one. -/
theorem length_insertQS (x : ReviewOut) :
    ∀ (l : List ReviewOut), (insertQS x l).length = l.length + 1 := by
  intro l
  induction l with
  | nil => simp [insertQS]
  | cons y ys ih =>
    simp only [insertQS]
    split
    · simp [ih]
    · simp

/-- The quality sort preserves length. -/
theorem length_sortQS : ∀ (l : List ReviewOut), (sortQS l).length = l.length := by
  intro l
  induction l with
  | nil => rfl
  | cons x xs ih => simp [sortQS, length_insertQS, ih]

/-- The `[:top_k]` cut of the sorted reviews: non-empty (for positive
`top_k` and non-empty input), at most `top_k` long, descending-sorted, and
drawn from the input. -/
theorem take_sortQS_props (l : List ReviewOut) (k : Nat) (hl : l ≠ []) (hk : 1 ≤ k) :
    (sortQS l).take k ≠ [] ∧ ((sortQS l).take k).length ≤ k ∧
      qsSortedDesc ((sortQS l).take k) ∧ ∀ r ∈ (sortQS l).take k, r ∈ l := by
  refine ⟨?_, ?_, ?_, ?_⟩
  · intro he
    have hc := congrArg List.length he
    rw [List.length_take, length_sortQS] at hc
    simp only [List.length_nil] at hc
    rcases Nat.min_eq_zero_iff.mp hc with h | h
    · omega
    · exact hl (List.length_eq_zero.mp h)
  · rw [List.length_take]
    exact min_le_left _ _
  · exact List.Pairwise.sublist (List.take_sublist _ _) (sorted_sortQS l)
  · intro r hr
    exact (mem_sortQS l r).mp (List.take_subset k (sortQS l) hr)

/-- `processProduct` returns either the cut of the primary snippets or —
when the primary scan accepted nothing — the cut of the fallback snippets. -/
theorem processProduct_cases {title : List Char} {k : Nat} {ms : List RMatch}
    {revs : List ReviewOut} (h : processProduct title k ms = some revs) :
    (primaryScan title (k * 2) ms [] ≠ [] ∧
        revs = (sortQS (primaryScan title (k * 2) ms [])).take k) ∨
      (primaryScan title (k * 2) ms [] = [] ∧ fallbackScan title ms ≠ [] ∧
        revs = (sortQS (fallbackScan title ms)).take k) := by
  simp only [processProduct] at h
  split at h
  next hne => exact Or.inl ⟨hne, (Option.some.inj h).symm⟩
  next hne =>
    split at h
    next hf => exact Or.inr ⟨not_ne_iff.mp hne, hf, (Option.some.inj h).symm⟩
    next => exact Option.noConfusion h

/-- Every entry of the batch-loop result was already accumulated or
records the successful processing of one of the remaining titles. -/
theorem fetchGo_mem (oracle : List Char → Nat → Except Unit (List RMatch)) (k : Nat) :
    ∀ (ts : List (List Char)) (acc : List (List Char × List ReviewOut))
      (x : List Char × List ReviewOut), x ∈ fetchGo oracle k ts acc →
      x ∈ acc ∨ (x.1 ∈ ts ∧ x.1 ≠ [] ∧ ∃ ms,
        oracle (queryText x.1) (k * 10) = Except.ok ms ∧
          processProduct x.1 k ms = some x.2) := by
  intro ts
  induction ts with
  | nil => intro acc x h; exact Or.inl h
  | cons t0 rest ih =>
    intro acc x h
    simp only [fetchGo] at h
    split at h
    next h0 =>
      rcases ih _ _ h with h | ⟨ht, hne, hrest⟩
      · exact Or.inl h
      · exact Or.inr ⟨List.mem_cons_of_mem _ ht, hne, hrest⟩
    next h0 =>
      rcases hq : oracle (queryText t0) (k * 10) with e | ms
      · rw [hq] at h
        exact absurd h (List.not_mem_nil x)
      · rw [hq] at h
        change x ∈ (match processProduct t0 k ms with
          | some reviews => fetchGo oracle k rest (dictInsert t0 reviews acc)
          | none => fetchGo oracle k rest acc) at h
        rcases hp : processProduct t0 k ms with _ | revs
        · rw [hp] at h
          rcases ih _ _ h with h | ⟨ht, hne, hrest⟩
          · exact Or.inl h
          · exact Or.inr ⟨List.mem_cons_of_mem _ ht, hne, hrest⟩
        · rw [hp] at h
          change x ∈ fetchGo oracle k rest (dictInsert t0 revs acc) at h
          rcases ih _ _ h with h | ⟨ht, hne, hrest⟩
          · rcases mem_dictInsert _ _ _ _ h with h | h
            · subst h
              exact Or.inr ⟨List.mem_cons_self _ _, h0, ms, hq, hp⟩
            · exact Or.inl h
          · exact Or.inr ⟨List.mem_cons_of_mem _ ht, hne, hrest⟩

/-- C5.  For a collaborator that honours its interface (returns at most
`top_k` matches), every entry of the result mapping has a key from the
input titles and a non-empty value of at most `top_k_per_product` snippets,
sorted descending by quality score, each snippet with review score >= 4 and
quality score >= 4.5 — or >= 4.0 only when the primary-threshold scan
accepted no candidate.  A product whose candidates are all eliminated is
simply absent (the mapping never holds an entry for it), not an error. -/
theorem C5_result_guarantee (oracle : List Char → Nat → Except Unit (List RMatch))
    (product_titles : List (List Char)) (top_k : Nat) (t : List Char) (revs : List ReviewOut)
    (hor : ∀ q n ms, oracle q n = Except.ok ms → ms.length ≤ n)
    (h : (t, revs) ∈ fetch_positive_reviews_for_products oracle product_titles top_k) :
    t ∈ product_titles ∧ revs ≠ [] ∧ revs.length ≤ top_k ∧ qsSortedDesc revs ∧
      (∀ r ∈ revs, 4 ≤ r.review_score ∧ 40 ≤ r.quality_score10) ∧
      ((∀ r ∈ revs, 45 ≤ r.quality_score10) ∨
        ∃ ms, oracle (queryText t) (top_k * 10) = Except.ok ms ∧
          primaryScan t (top_k * 2) ms [] = []) := by
  rcases fetchGo_mem oracle top_k product_titles [] (t, revs) h with h' | ⟨ht, _, ms, hq, hp⟩
  · exact absurd h' (List.not_mem_nil _)
  · dsimp only at ht hq hp
    have hms : ms.length ≤ top_k * 10 := hor _ _ _ hq
    rcases processProduct_cases hp with ⟨hP, hrevs⟩ | ⟨hPnil, hF, hrevs⟩
    · have hk : 1 ≤ top_k := by
        rcases Nat.eq_zero_or_pos top_k with h0 | h0
        · subst h0
          exfalso
          have hms0 : ms = [] := by
            have h1 : ms.length ≤ 0 := by simpa using hms
            exact List.length_eq_zero.mp (Nat.le_zero.mp h1)
          subst hms0
          exact hP rfl
        · exact h0
      obtain ⟨hne', hlen, hsort, hmem'⟩ := take_sortQS_props _ top_k hP hk
      subst hrevs
      refine ⟨ht, hne', hlen, hsort, ?_, Or.inl ?_⟩
      · intro r hr
        rcases primaryScan_mem t (top_k * 2) ms [] r (hmem' r hr) with hx | hx
        · exact absurd hx (List.not_mem_nil r)
        · exact ⟨hx.1, by omega⟩
      · intro r hr
        rcases primaryScan_mem t (top_k * 2) ms [] r (hmem' r hr) with hx | hx
        · exact absurd hx (List.not_mem_nil r)
        · exact hx.2
    · have hk : 1 ≤ top_k := by
        rcases Nat.eq_zero_or_pos top_k with h0 | h0
        · subst h0
          exfalso
          have hms0 : ms = [] := by
            have h1 : ms.length ≤ 0 := by simpa using hms
            exact List.length_eq_zero.mp (Nat.le_zero.mp h1)
          subst hms0
          exact hF rfl
        · exact h0
      obtain ⟨hne', hlen, hsort, hmem'⟩ := take_sortQS_props _ top_k hF hk
      subst hrevs
      refine ⟨ht, hne', hlen, hsort, ?_, Or.inr ⟨ms, hq, hPnil⟩⟩
      intro r hr
      exact fallbackScan_mem t ms r (hmem' r hr)

/-- C5 (witness): against the conformant `c5Oracle`, the batch `[a]` with
`top_k_per_product = 2` yields the entry `("a", [goodOut])`, which satisfies
every conjunct of the guarantee. -/
theorem C5_result_guarantee_witness :
    (("a").data) ∈ [("a").data] ∧ [goodOut] ≠ [] ∧ [goodOut].length ≤ 2 ∧
      qsSortedDesc [goodOut] ∧
      (∀ r ∈ [goodOut], 4 ≤ r.review_score ∧ 40 ≤ r.quality_score10) ∧
      ((∀ r ∈ [goodOut], 45 ≤ r.quality_score10) ∨
        ∃ ms, c5Oracle (queryText (("a").data)) (2 * 10) = Except.ok ms ∧
          primaryScan (("a").data) (2 * 2) ms [] = []) :=
  C5_result_guarantee c5Oracle [("a").data] 2 (("a").data) [goodOut]
    (by
      intro q n ms hmsg
      unfold c5Oracle at hmsg
      split at hmsg
      next hcond =>
        injection hmsg with hmsg'
        subst hmsg'
        simpa using hcond.2
      next =>
        injection hmsg with hmsg'
        subst hmsg'
        simp)
    (by decide)

end Hairstory
